import Mathlib

/-!
Verification of the job-email pipeline.

A shallow embedding, in Lean 4, of the core pipeline of the
`job-email-llm` repository (`parse_gmail_jobs.py`, `status_utils.py`),
together with proofs about it.

Modelling conventions:

* Python's dynamically typed values are modelled by the inductive `PyVal`
  (None, bool, int, str, list, dict).
* Python strings are modelled as `String` / `List Char`; `str.lower()` is
  modelled with `Char.toLower` (exact on the ASCII text the pipeline
  manipulates), `str.strip()` strips the ASCII whitespace characters that
  Python strips.
* The SQLite database is modelled as explicit lists of rows
  (`emails` table, `applications` table) plus the next AUTOINCREMENT id of
  the `applications` table.  `created_at TIMESTAMP DEFAULT CURRENT_TIMESTAMP`
  columns record real wall-clock time and are left out of the model.
* The external LLM call is modelled by a schedule of attempt outcomes
  (`Nat → Outcome`), and `json.loads` (an external library) by an abstract
  parse function `String → Except String PyVal` (failure carries the
  exception message `str(e)`).
-/

namespace JobEmailLLM

/-- Model of a dynamically typed Python value. -/
inductive PyVal where
  | none
  | bool (b : Bool)
  | int (n : Int)
  | str (s : String)
  | list (xs : List PyVal)
  | dict (kvs : List (String × PyVal))

/-- Python truthiness (`bool(v)`): `None`, `False`, `0`, `""` and empty
containers are falsy, everything else is truthy. -/
def pyTruthy : PyVal → Bool
  | PyVal.none => false
  | PyVal.bool b => b
  | PyVal.int n => decide (n ≠ 0)
  | PyVal.str s => decide (s ≠ "")
  | PyVal.list xs => !xs.isEmpty
  | PyVal.dict kvs => !kvs.isEmpty

/-- First binding of key `k` in an association list (Python dict lookup;
keys are unique in dicts built by `dictInsert`). -/
def dictFind : List (String × PyVal) → String → Option PyVal
  | [], _ => Option.none
  | (k, v) :: kvs, key => if k = key then some v else dictFind kvs key

/-- Python's `d.get(key, default)`. -/
def dictGetD (kvs : List (String × PyVal)) (key : String) (d : PyVal) : PyVal :=
  (dictFind kvs key).getD d

/-! ## String helpers mirroring the Python string operations used -/

/-- Test that `needle` is a prefix of `hay` (character lists). -/
def strStartsWith : List Char → List Char → Bool
  | _, [] => true
  | [], _ :: _ => false
  | h :: hs, n :: ns => h = n && strStartsWith hs ns

/-- Python's substring test `needle in hay` on character lists. -/
def strContainsSub : List Char → List Char → Bool
  | [], needle => needle.isEmpty
  | h :: hs, needle => strStartsWith (h :: hs) needle || strContainsSub hs needle

/-- Python's `s.lower()` as a character list (exact for the ASCII text involved). -/
def pyLowerChars (s : String) : List Char :=
  s.toList.map Char.toLower

/-- The ASCII whitespace characters stripped by Python's `str.strip()`. -/
def isPySpace (c : Char) : Bool :=
  c = ' ' || c = '\t' || c = '\n' || c = '\r' || c = '\x0b' || c = '\x0c'

/-- Python's `s.strip()`. -/
def pyStrip (s : String) : String :=
  String.mk (((s.toList.dropWhile isPySpace).reverse.dropWhile isPySpace).reverse)

/-- Python's `s.lower()` as a `String`. -/
def pyLower (s : String) : String :=
  String.mk (pyLowerChars s)

/-! ## `status_utils.py` -/

/-- The canonical status values (`CANONICAL` in `status_utils.py`). -/
def CANONICAL : List String :=
  ["applied", "interview", "offer", "rejected", "unknown"]

/-- The table `STATUS_MAP` from `status_utils.py`, in source order. -/
def STATUS_MAP : List (String × String) :=
  [ ("application received", "applied"),
    ("applied", "applied"),
    ("applied for", "applied"),
    ("submitted", "applied"),
    ("application submitted", "applied"),
    ("interview invite", "interview"),
    ("scheduled interview", "interview"),
    ("interview scheduled", "interview"),
    ("interview", "interview"),
    ("rejection", "rejected"),
    ("declined", "rejected"),
    ("rejected", "rejected"),
    ("not selected", "rejected"),
    ("offer", "offer"),
    ("other", "unknown"),
    ("", "unknown") ]

/-- Association-list lookup with a default, modelling `dict.get(key, default)`
on a `str → str` dict. -/
def lookupD : List (String × String) → String → String → String
  | [], _, d => d
  | (k, v) :: rest, key, d => if key = k then v else lookupD rest key d

/-- Function `clean_status(raw_status)` from `status_utils.py`.  The argument is an
`Option String` because the function is also called with `None`
(`(raw_status or "").strip().lower()` coerces `None` to `""`). -/
def clean_status (raw_status : Option String) : String :=
  lookupD STATUS_MAP (pyLower (pyStrip (raw_status.getD ""))) "unknown"

/-! ## Prefilter gates (`parse_gmail_jobs.py`) -/

/-- A fetched mail as the dict built by `get_job_emails` (the fields the
filter gates and the run driver read). -/
structure Mail where
  id : String
  subject : String
  fromAddr : String
  body : String
deriving DecidableEq, Repr

/-- The list `job_like_keywords` from `parse_gmail_jobs.py`, in source order. -/
def job_like_keywords : List String :=
  [ "job", "application", "applied", "interview", "offer",
    "position", "role", "career", "candidate", "hiring",
    "recruit", "recruiter", "opening" ]

/-- Gate `looks_job_related(mail)`: some job keyword occurs in
`(subject + " " + body).lower()`. -/
def looks_job_related (m : Mail) : Bool :=
  job_like_keywords.any fun w =>
    strContainsSub (pyLowerChars (m.subject ++ " " ++ m.body)) w.toList

/-- Gate `contains_blacklist_keywords(mail, blacklist_keywords)`: some blacklist
word occurs in `(subject + " " + from).lower()`. -/
def contains_blacklist_keywords (m : Mail) (blacklist : List String) : Bool :=
  blacklist.any fun w =>
    strContainsSub (pyLowerChars (m.subject ++ " " ++ m.fromAddr)) w.toList

/-! ## `save_rows` (`parse_gmail_jobs.py`, the Persistence Layer)

The SQLite database is modelled by `DB`: the `emails` table (rows in
insertion order, `id TEXT PRIMARY KEY`), the `applications` table (rows in
insertion order) and the next value of the `applications` AUTOINCREMENT
primary key.  A fresh database has `nextAppId = 1`. -/

/-- A row of the `emails` table (without the wall-clock `created_at`). -/
structure EmailRec where
  id : String
  email_num : PyVal
  subject : PyVal
  sender : PyVal
  date_email : PyVal
  date_email_iso : PyVal
  company : PyVal
  job_title : PyVal
  status : PyVal
  parsed_date : PyVal
  reason : PyVal
  error : PyVal

/-- A row of the `applications` table (without the wall-clock
`created_at`); `rowid` is the AUTOINCREMENT surrogate primary key. -/
structure AppRec where
  rowid : Nat
  email_id : String
  company : PyVal
  job_title : PyVal
  status : PyVal
  parsed_date : PyVal
  reason : PyVal
  error : PyVal

/-- The columns of an `applications` row other than the surrogate key. -/
structure AppCols where
  email_id : String
  company : PyVal
  job_title : PyVal
  status : PyVal
  parsed_date : PyVal
  reason : PyVal
  error : PyVal

/-- The database state. -/
structure DB where
  emails : List EmailRec
  apps : List AppRec
  nextAppId : Nat

/-- One job mention nested under a row (`row["applications"]` element,
the dict built in `main`). -/
structure AppDict where
  company : PyVal
  job_title : PyVal
  status : PyVal
  parsed_date : PyVal
  reason : PyVal
  error : PyVal

/-- An input row for `save_rows`: the dict built in `main`, whose keys are
exactly the named SQL parameters (`:id`, `:email_num`, `:subject`, `:from`,
`:date_email`, `:date_email_iso`, `:company`, `:job_title`, `:status`,
`:parsed_date`, `:reason`, `:error`) plus `"applications"`. -/
structure RowIn where
  id : String
  email_num : PyVal
  subject : PyVal
  fromAddr : PyVal
  date_email : PyVal
  date_email_iso : PyVal
  company : PyVal
  job_title : PyVal
  status : PyVal
  parsed_date : PyVal
  reason : PyVal
  error : PyVal
  applications : List AppDict

mutual
/-- Python `repr(v)` for the values that can reach `_clean`
(string rendering inside containers; exact for scalars). -/
def pyRepr : PyVal → String
  | PyVal.none => "None"
  | PyVal.bool b => if b then "True" else "False"
  | PyVal.int n => toString n
  | PyVal.str s => "'" ++ s ++ "'"
  | PyVal.list xs => "[" ++ pyReprSeq xs ++ "]"
  | PyVal.dict kvs => "\x7b" ++ pyReprKvs kvs ++ "\x7d"

/-- Comma-separated reprs of a list's elements. -/
def pyReprSeq : List PyVal → String
  | [] => ""
  | [v] => pyRepr v
  | v :: vs => pyRepr v ++ ", " ++ pyReprSeq vs

/-- Comma-separated reprs of a dict's items. -/
def pyReprKvs : List (String × PyVal) → String
  | [] => ""
  | [(k, v)] => "'" ++ k ++ "': " ++ pyRepr v
  | (k, v) :: kvs => "'" ++ k ++ "': " ++ pyRepr v ++ ", " ++ pyReprKvs kvs
end

/-- Python `str(v)` (as used by `"; ".join(str(v) for v in value)`). -/
def pyStr : PyVal → String
  | PyVal.str s => s
  | v => pyRepr v

mutual
/-- Python's `json.dumps(v)` on the dict values that can reach `_clean`. -/
def jsonVal : PyVal → String
  | PyVal.none => "null"
  | PyVal.bool b => if b then "true" else "false"
  | PyVal.int n => toString n
  | PyVal.str s => "\"" ++ s ++ "\""
  | PyVal.list xs => "[" ++ jsonSeq xs ++ "]"
  | PyVal.dict kvs => "\x7b" ++ jsonKvs kvs ++ "\x7d"

/-- Comma-separated JSON encodings of a list's elements. -/
def jsonSeq : List PyVal → String
  | [] => ""
  | [v] => jsonVal v
  | v :: vs => jsonVal v ++ ", " ++ jsonSeq vs

/-- Comma-separated JSON encodings of a dict's items. -/
def jsonKvs : List (String × PyVal) → String
  | [] => ""
  | [(k, v)] => "\"" ++ k ++ "\": " ++ jsonVal v
  | (k, v) :: kvs => "\"" ++ k ++ "\": " ++ jsonVal v ++ ", " ++ jsonKvs kvs
end

/-- Python's `json.dumps` on a dict (the only shape `_clean` passes to it). -/
def jsonDumps (kvs : List (String × PyVal)) : String :=
  jsonVal (PyVal.dict kvs)

/-- Function `_clean(value)` from `save_rows`: `None → ""`, list → `"; "`-join of the
`str` of its elements, dict → its JSON encoding, anything else unchanged. -/
def pyClean : PyVal → PyVal
  | PyVal.none => PyVal.str ""
  | PyVal.list xs => PyVal.str (String.intercalate "; " (xs.map pyStr))
  | PyVal.dict kvs => PyVal.str (jsonDumps kvs)
  | v => v

/-- The cleaned row handed to the `INSERT INTO emails` statement:
`{k: _clean(v) for k, v in row.items() if k != "applications"}`, with the
`:from` parameter bound to the `sender` column.  (`row["id"]` is a string,
on which `_clean` is the identity.) -/
def cleanRow (r : RowIn) : EmailRec :=
  { id := r.id
    email_num := pyClean r.email_num
    subject := pyClean r.subject
    sender := pyClean r.fromAddr
    date_email := pyClean r.date_email
    date_email_iso := pyClean r.date_email_iso
    company := pyClean r.company
    job_title := pyClean r.job_title
    status := pyClean r.status
    parsed_date := pyClean r.parsed_date
    reason := pyClean r.reason
    error := pyClean r.error }

/-- The `ON CONFLICT(id) DO UPDATE SET` clause: overwrite `subject`,
`sender`, `date_email_iso`, `company`, `job_title`, `status`,
`parsed_date`, `reason`, `error` from the excluded row; `email_num` and
`date_email` are not in the clause and keep their old values. -/
def applyUpd (c : EmailRec) (e : EmailRec) : EmailRec :=
  { e with
    subject := c.subject
    sender := c.sender
    date_email_iso := c.date_email_iso
    company := c.company
    job_title := c.job_title
    status := c.status
    parsed_date := c.parsed_date
    reason := c.reason
    error := c.error }

/-- One `INSERT INTO emails ... ON CONFLICT(id) DO UPDATE` for a cleaned
row: insert if the id is absent, otherwise update in place. -/
def upsertEmail (E : List EmailRec) (c : EmailRec) : List EmailRec :=
  if E.any fun e => e.id = c.id then
    E.map fun e => if e.id = c.id then applyUpd c e else e
  else
    E ++ [c]

/-- Insert-or-overwrite of a binding in a dict
(`applications_by_email[row["id"]] = ...`): replace the binding of `k` if
present (keys are unique by construction), else append it. -/
def dictInsert : List (String × List AppDict) → String → List AppDict →
    List (String × List AppDict)
  | [], k, v => [(k, v)]
  | (k1, v1) :: rest, k, v =>
    if k1 = k then (k, v) :: rest else (k1, v1) :: dictInsert rest k v

/-- Lookup in the `applications_by_email` dict. -/
def abeFind : List (String × List AppDict) → String → Option (List AppDict)
  | [], _ => Option.none
  | (k, v) :: kvs, key => if k = key then some v else abeFind kvs key

/-- The `applications_by_email` dict built by the first loop of
`save_rows`. -/
def abeOf (rows : List RowIn) : List (String × List AppDict) :=
  rows.foldl (fun d r => dictInsert d r.id r.applications) []

/-- The Application row synthesized from the row's own flat fields when no
job mention was extracted. -/
def synthApp (r : RowIn) : AppDict :=
  { company := r.company
    job_title := r.job_title
    status := r.status
    parsed_date := r.parsed_date
    reason := r.reason
    error := r.error }

/-- The application rows contributed by one input row: the extracted
mentions looked up in `applications_by_email` (or the synthesized single
row when that list is empty), each field passed through `_clean`. -/
def appColsOf (abe : List (String × List AppDict)) (r : RowIn) :
    List AppCols :=
  let apps := (abeFind abe r.id).getD []
  let apps := if apps.isEmpty then [synthApp r] else apps
  apps.map fun a =>
    { email_id := r.id
      company := pyClean a.company
      job_title := pyClean a.job_title
      status := pyClean a.status
      parsed_date := pyClean a.parsed_date
      reason := pyClean a.reason
      error := pyClean a.error }

/-- The full `applications` parameter list built by the second loop of
`save_rows`, in insertion order. -/
def buildApps (rows : List RowIn) : List AppCols :=
  rows.foldr (fun r acc => appColsOf (abeOf rows) r ++ acc) []

/-- Model of `INSERT INTO applications`: assign consecutive AUTOINCREMENT ids
starting at `n`. -/
def numberFrom (n : Nat) : List AppCols → List AppRec
  | [] => []
  | c :: cs =>
      { rowid := n
        email_id := c.email_id
        company := c.company
        job_title := c.job_title
        status := c.status
        parsed_date := c.parsed_date
        reason := c.reason
        error := c.error } :: numberFrom (n + 1) cs

/-- Function `save_rows(conn, rows)`: no-op on an empty batch; otherwise, in one
transaction, upsert each cleaned row into `emails`, delete every
`applications` row whose `email_id` is an id of the batch, and insert the
freshly built application rows. -/
def saveRows (db : DB) (rows : List RowIn) : DB :=
  if rows.isEmpty then db
  else
    let cleaned := rows.map cleanRow
    let emailIds := cleaned.map fun c => c.id
    let newCols := buildApps rows
    { emails := cleaned.foldl upsertEmail db.emails
      apps := (db.apps.filter fun a => !(emailIds.contains a.email_id))
               ++ numberFrom db.nextAppId newCols
      nextAppId := db.nextAppId + newCols.length }

/-- Number of `applications` rows for a given email id. -/
def countApps (db : DB) (i : String) : Nat :=
  (db.apps.filter fun a => a.email_id = i).length

/-! ## `extract_job_status_claude` (the Extraction Engine) -/

/-- Index of the first occurrence of `c` (`text.find(c)`, `none` for -1). -/
def firstIdx : List Char → Char → Option Nat
  | [], _ => Option.none
  | x :: xs, c => if x = c then some 0 else (firstIdx xs c).map (· + 1)

/-- Index of the last occurrence of `c` (`text.rfind(c)`, `none` for -1). -/
def lastIdx (s : List Char) (c : Char) : Option Nat :=
  (firstIdx s.reverse c).map fun i => s.length - 1 - i

/-- The opening-brace character. -/
def lbrace : Char := Char.ofNat 123

/-- The closing-brace character. -/
def rbrace : Char := Char.ofNat 125

/-- Computation of `json_text`: the substring bounded by the first `'\x7b'` and the last
`'\x7d'` (`text[start:end]`), or the whole text when
`start == -1 or end == 0`. -/
def extractedJsonText (text : String) : String :=
  match firstIdx text.toList lbrace, lastIdx text.toList rbrace with
  | some s, some l => String.mk ((text.toList.take (l + 1)).drop s)
  | _, _ => text

/-- The bindings of the dict returned when `json.loads(json_text)` raises,
with `e` the exception text (`str(e)`), in source order. -/
def parseFailKvs (e : String) : List (String × PyVal) :=
  [ ("company", PyVal.str ""), ("job_title", PyVal.str ""),
    ("status", PyVal.str ""), ("date", PyVal.str ""),
    ("relevant", PyVal.bool false), ("reason", PyVal.str "Parsing failed"),
    ("error", PyVal.str e) ]

/-- The dict returned when `json.loads(json_text)` raises, with `e` the
exception text (`str(e)`). -/
def parseFailDict (e : String) : PyVal :=
  PyVal.dict (parseFailKvs e)

/-- The post-loop return value of `extract_job_status_claude` (reached when
the retry loop exits via `break` or exhausts its range). -/
def failureResult : PyVal :=
  PyVal.dict
    [ ("relevant", PyVal.bool false), ("reason", PyVal.str "Parsing failed"),
      ("jobs", PyVal.list []), ("error", PyVal.str "Parsing failed") ]

/-- Python's `json.loads` is an external library; it is modelled by an abstract
parse function returning either the parsed value or `str(e)` of the raised
exception. -/
abbrev JsonLoads := String → Except String PyVal

/-- The body of the `try` after a successful model invocation: cut out
`json_text` and `json.loads` it; on failure return the legacy flat dict
with the parse error recorded in `"error"`. -/
def parseLlmText (jsonLoads : JsonLoads) (text : String) : PyVal :=
  match jsonLoads (extractedJsonText text) with
  | Except.ok data => data
  | Except.error e => parseFailDict e

/-- Outcome of one `client.invoke_model` attempt: a response whose content
text is `text`, a `botocore` `ClientError` with error code `code`, or any
other exception. -/
inductive Outcome where
  | ok (text : String)
  | clientErr (code : String)
  | exc (msg : String)

/-- The retry loop `for attempt in range(4)`, from attempt index `a` with
`fuel` iterations left: a successful invocation returns the parsed result;
a `ClientError` with code `"ThrottlingException"` at `attempt < 3` retries;
every other error breaks out to `failureResult`. -/
def extractFrom (jsonLoads : JsonLoads) (o : Nat → Outcome) :
    Nat → Nat → PyVal
  | _, 0 => failureResult
  | a, fuel + 1 =>
    match o a with
    | Outcome.ok text => parseLlmText jsonLoads text
    | Outcome.clientErr code =>
        if code = "ThrottlingException" ∧ a < 3 then
          extractFrom jsonLoads o (a + 1) fuel
        else failureResult
    | Outcome.exc _ => failureResult

/-- Function `extract_job_status_claude`, as a function of the attempt outcomes and
of `json.loads`.  Prompt construction and the provider payload do not
affect the returned value and are not modelled. -/
def extract_job_status_claude (jsonLoads : JsonLoads) (o : Nat → Outcome) :
    PyVal :=
  extractFrom jsonLoads o 0 4

/-- Number of `invoke_model` calls made by the retry loop from attempt `a`
with `fuel` iterations left. -/
def attemptsFrom (o : Nat → Outcome) : Nat → Nat → Nat
  | _, 0 => 0
  | a, fuel + 1 =>
    match o a with
    | Outcome.ok _ => 1
    | Outcome.clientErr code =>
        if code = "ThrottlingException" ∧ a < 3 then
          1 + attemptsFrom o (a + 1) fuel
        else 1
    | Outcome.exc _ => 1

/-- Total number of `invoke_model` calls made by one
`extract_job_status_claude` call. -/
def attemptsUsed (o : Nat → Outcome) : Nat :=
  attemptsFrom o 0 4

/-- The backoff slept before retry number `a + 1`:
`2.0 * (attempt + 1) + random.random()`, with `j` the jitter drawn from
`[0, 1)`. -/
def backoffDelay (a : Nat) (j : ℚ) : ℚ :=
  2 * ((a : ℚ) + 1) + j

/-! ## The run driver slice around the gates (`main`) -/

/-- Does this mail trigger the early-stop sentinel check
(`if last_id and mail['id'] == last_id`)?  `last_id` is `None` when the
sentinel file is absent or empty. -/
def isSentinel (lastId : Option String) (m : Mail) : Bool :=
  match lastId with
  | some s => m.id = s
  | Option.none => false

/-- The filter loop of `main` building `emails_to_process`: stop at the
sentinel; skip blacklisted mails; skip mails failing the job-likelihood
gate; keep the rest in fetch order.  (The duplicate-id skip is commented
out in the source.) -/
def selectCandidates (lastId : Option String) (blacklist : List String) :
    List Mail → List Mail
  | [] => []
  | m :: ms =>
    if isSentinel lastId m then []
    else if contains_blacklist_keywords m blacklist then
      selectCandidates lastId blacklist ms
    else if looks_job_related m then
      m :: selectCandidates lastId blacklist ms
    else
      selectCandidates lastId blacklist ms

/-- Declarative form of `selectCandidates`: the prefix of the fetch order
before the sentinel, filtered by the two gates. -/
def specCandidates (lastId : Option String) (blacklist : List String)
    (ms : List Mail) : List Mail :=
  (ms.takeWhile fun m => !isSentinel lastId m).filter fun m =>
    !contains_blacklist_keywords m blacklist && looks_job_related m

/-- The candidates whose extraction result is kept
(`llm_result.get("relevant", True)` truthy); with `max_workers=1` results
arrive in submission order.  `res m` is the `llm_result` dict for `m`. -/
def outputRows (res : Mail → List (String × PyVal)) (cands : List Mail) :
    List Mail :=
  cands.filter fun m => pyTruthy (dictGetD (res m) "relevant" (PyVal.bool true))

/-- The resume state written at the end of one `main` batch:
`lastProcessedId = none` means `last_processed_id.txt` was left untouched;
`pageTokenFile` is the content written to `next_page_token.txt`. -/
structure Checkpoint where
  lastProcessedId : Option String
  pageTokenFile : String
deriving DecidableEq, Repr

/-- The checkpoint writes of one `main` batch: the sentinel file gets
`emails_to_process[-1][0]['id']` but only when `output_rows` is nonempty
(and that id is truthy); the page-token file always gets
`new_page_token or ""`. -/
def checkpointOf (lastId : Option String) (blacklist : List String)
    (res : Mail → List (String × PyVal)) (mails : List Mail)
    (newPageToken : Option String) : Checkpoint :=
  let cands := selectCandidates lastId blacklist mails
  let outs := outputRows res cands
  { lastProcessedId :=
      if outs.isEmpty then Option.none
      else
        match cands.getLast? with
        | some m => if m.id = "" then Option.none else some m.id
        | Option.none => Option.none
    pageTokenFile := newPageToken.getD "" }

/-! ## Derived notions used by the verification -/

/-- The id column of every row of a list of `emails` rows. -/
def idsOf (E : List EmailRec) : List String :=
  E.map fun e => e.id

/-- The last row of `cs` whose id is `i`, if any (the winning entry of the
conflict-update chain for that id). -/
def lastFor : List EmailRec → String → Option EmailRec
  | [], _ => Option.none
  | c :: cs, i =>
    match lastFor cs i with
    | some r => some r
    | Option.none => if c.id = i then some c else Option.none

/-- Apply to `e` the conflict-update of the last batch row with its id
(no-op when the batch has no row with that id). -/
def patch (cs : List EmailRec) (e : EmailRec) : EmailRec :=
  match lastFor cs e.id with
  | some c => applyUpd c e
  | Option.none => e

/-- The rows of `cs` that insert a fresh id (first occurrences of ids not
in `seen`), in order. -/
def freshAux (seen : List String) : List EmailRec → List EmailRec
  | [] => []
  | c :: cs =>
    if c.id ∈ seen then freshAux seen cs
    else c :: freshAux (c.id :: seen) cs

/-- Content of an `applications` row: every column except the surrogate
AUTOINCREMENT key. -/
def stripRowid (a : AppRec) : AppCols :=
  { email_id := a.email_id
    company := a.company
    job_title := a.job_title
    status := a.status
    parsed_date := a.parsed_date
    reason := a.reason
    error := a.error }

/-- Scalar values: neither `None`, nor a list, nor a dict. -/
def isScalar : PyVal → Bool
  | PyVal.none => false
  | PyVal.list _ => false
  | PyVal.dict _ => false
  | _ => true

/-- Every column value an `emails` insert binds, other than the id. -/
def emailFieldVals (e : EmailRec) : List PyVal :=
  [e.email_num, e.subject, e.sender, e.date_email, e.date_email_iso,
   e.company, e.job_title, e.status, e.parsed_date, e.reason, e.error]

/-- Every column value an `applications` insert binds, other than the id
columns. -/
def appColVals (a : AppCols) : List PyVal :=
  [a.company, a.job_title, a.status, a.parsed_date, a.reason, a.error]

/-! ## Concrete instances used by counterexamples and witnesses -/

/-- The empty Python string value. -/
def emptyS : PyVal := PyVal.str ""

/-- A job-mention dict whose company is `c` and whose other fields are
empty strings. -/
def appD (c : String) : AppDict :=
  { company := PyVal.str c, job_title := emptyS, status := emptyS,
    parsed_date := emptyS, reason := emptyS, error := emptyS }

/-- An input row with id `i`, nested applications `apps`, and unremarkable
flat fields. -/
def rowFor (i : String) (apps : List AppDict) : RowIn :=
  { id := i, email_num := PyVal.int 1, subject := PyVal.str "s",
    fromAddr := emptyS, date_email := emptyS, date_email_iso := emptyS,
    company := emptyS, job_title := emptyS, status := emptyS,
    parsed_date := emptyS, reason := emptyS, error := emptyS,
    applications := apps }

/-- A freshly created database. -/
def emptyDB : DB := { emails := [], apps := [], nextAppId := 1 }

/-- A promotional mail whose subject contains the word "application" in a
non-job sense and whose body contains no job keyword. -/
def rentalMail : Mail :=
  { id := "promo-1", subject := "50% off your next rental application!",
    fromAddr := "deals@rentals.example",
    body := "Save big on your next apartment." }

/-- A minimal mail whose subject is a job keyword. -/
def jobMail : Mail :=
  { id := "w3", subject := "job", fromAddr := "a@b", body := "" }

/-- A pre-existing `emails` row with id "m1". -/
def e0C4 : EmailRec :=
  { id := "m1", email_num := PyVal.int 1, subject := PyVal.str "old-subject",
    sender := emptyS, date_email := PyVal.str "old-date",
    date_email_iso := emptyS, company := emptyS, job_title := emptyS,
    status := emptyS, parsed_date := emptyS, reason := emptyS,
    error := emptyS }

/-- A database already containing the email "m1". -/
def dbC4 : DB := { emails := [e0C4], apps := [], nextAppId := 1 }

/-- A reprocessed row for "m1" with a different ordinal and date header. -/
def rowC4 : RowIn :=
  { id := "m1", email_num := PyVal.int 2, subject := PyVal.str "new-subject",
    fromAddr := emptyS, date_email := PyVal.str "new-date",
    date_email_iso := emptyS, company := emptyS, job_title := emptyS,
    status := emptyS, parsed_date := emptyS, reason := emptyS,
    error := emptyS, applications := [] }

/-- A candidate mail that is job-related and extracted as relevant. -/
def mailC8w : Mail :=
  { id := "c8w", subject := "job opening", fromAddr := "hr@example.com",
    body := "come interview" }

/-- A fetched mail with no job keyword (fails the prefilter). -/
def mailC8b : Mail :=
  { id := "m2", subject := "Family dinner", fromAddr := "mom@example.com",
    body := "See you on Sunday." }

/-- A job-related mail whose extraction is classified not relevant. -/
def mailC8 : Mail :=
  { id := "m1", subject := "Job application update",
    fromAddr := "careers@example.com",
    body := "We received your application." }

/-- An extraction schedule marking every mail relevant. -/
def resTrueC8 : Mail → List (String × PyVal) :=
  fun _ => [("relevant", PyVal.bool true)]

/-- An extraction schedule marking every mail not relevant. -/
def resFalseC8 : Mail → List (String × PyVal) :=
  fun _ => [("relevant", PyVal.bool false)]

/-- A row with one extracted job mention. -/
def rowC6 : RowIn := rowFor "c6" [appD "Acme"]

/-- First of two same-id rows in one batch (one mention). -/
def rowC1a : RowIn := rowFor "dup" [appD "X"]

/-- Second of two same-id rows in one batch (two mentions). -/
def rowC1b : RowIn := rowFor "dup" [appD "Y", appD "Z"]

/-- A row with two extracted mentions. -/
def rowC1w1 : RowIn := rowFor "w1" [appD "Acme", appD "Globex"]

/-- A row with no extracted mentions. -/
def rowC1w2 : RowIn := rowFor "w2" []

/-- A row with no extracted mentions, for the value-coercion witness. -/
def rowC10 : RowIn := rowFor "w" []

/-- The single application row save_rows synthesizes for rowC10. -/
def a0C10 : AppCols :=
  { email_id := "w", company := emptyS, job_title := emptyS,
    status := emptyS, parsed_date := emptyS, reason := emptyS,
    error := emptyS }

end JobEmailLLM

namespace JobEmailLLM

/-! ## Lemmas about the status normalizer -/

/-- A defaulted lookup returns the default or one of the table's values. -/
theorem lookupD_mem (m : List (String × String)) (k d : String) :
    lookupD m k d = d ∨ lookupD m k d ∈ m.map Prod.snd := by
  induction m with
  | nil => left; rfl
  | cons p rest ih =>
    obtain ⟨k1, v1⟩ := p
    by_cases h : k = k1
    · right; simp [lookupD, h]
    · rcases ih with h2 | h2
      · left; simpa [lookupD, h] using h2
      · right
        have heq : lookupD ((k1, v1) :: rest) k d = lookupD rest k d := by
          simp [lookupD, h]
        rw [heq, List.map_cons]
        exact List.mem_cons_of_mem _ h2

/-- A defaulted lookup on a key the table does not contain returns the
default. -/
theorem lookupD_default_of_not_mem (m : List (String × String))
    (k d : String) (h : ∀ p ∈ m, p.1 ≠ k) : lookupD m k d = d := by
  induction m with
  | nil => rfl
  | cons p rest ih =>
    obtain ⟨k1, v1⟩ := p
    have hk : k ≠ k1 := fun hh => h (k1, v1) (by simp) (by simpa using hh.symm)
    simp only [lookupD, if_neg hk]
    exact ih fun q hq => h q (by simp [hq])

/-- Claim C7: for every raw status string, clean_status is idempotent,
always returns one of the five canonical values, maps empty input to
"unknown", and maps any input whose normalized form is not a key of
STATUS_MAP to "unknown".  (It is a pure total Lean function, hence
deterministic and never failing.) -/
theorem C7_clean_status_idem_canonical (s : String) :
    clean_status (some (clean_status (some s))) = clean_status (some s) ∧
    clean_status (some s) ∈ CANONICAL ∧
    clean_status (some "") = "unknown" ∧
    ((∀ p ∈ STATUS_MAP, p.1 ≠ pyLower (pyStrip s)) →
      clean_status (some s) = "unknown") := by
  have hmem : clean_status (some s) ∈ CANONICAL := by
    have h := lookupD_mem STATUS_MAP (pyLower (pyStrip s)) "unknown"
    have hsub : ∀ v ∈ ("unknown" :: STATUS_MAP.map Prod.snd), v ∈ CANONICAL := by
      decide
    refine hsub _ (List.mem_cons.mpr ?_)
    simpa [clean_status] using h
  have hfix : ∀ v ∈ CANONICAL, clean_status (some v) = v := by decide
  refine ⟨hfix _ hmem, hmem, by decide, ?_⟩
  intro h
  simp only [clean_status, Option.getD]
  exact lookupD_default_of_not_mem _ _ _ h

/-- Witness for C7 at the raw status "xyz-unexpected", whose normalized
form is not a STATUS_MAP key. -/
theorem C7_witness : clean_status (some "xyz-unexpected") = "unknown" :=
  (C7_clean_status_idem_canonical "xyz-unexpected").2.2.2 (by decide)

/-- Claim C9: clean_status is total over None as well: called with None it
returns "unknown", behaving exactly as on the empty string the `or ""`
coercion produces. -/
theorem C9_clean_status_none : clean_status Option.none = "unknown" ∧
    clean_status Option.none = clean_status (some "") := by decide

/-! ## Lemmas about the substring test and the job-likelihood gate -/

/-- Boolean prefix test, characterized. -/
theorem strStartsWith_iff (n : List Char) :
    ∀ h : List Char, strStartsWith h n = true ↔ ∃ t, h = n ++ t := by
  induction n with
  | nil =>
    intro h
    constructor
    · intro _; exact ⟨h, rfl⟩
    · intro _; cases h <;> rfl
  | cons c ns ih =>
    intro h
    cases h with
    | nil =>
      simp only [strStartsWith]
      constructor
      · intro hh; cases hh
      · rintro ⟨t, ht⟩; cases ht
    | cons x xs =>
      simp only [strStartsWith, Bool.and_eq_true, decide_eq_true_eq, ih xs]
      constructor
      · rintro ⟨rfl, t, rfl⟩; exact ⟨t, rfl⟩
      · rintro ⟨t, ht⟩
        rw [List.cons_append] at ht
        injection ht with h1 h2
        exact ⟨h1, t, h2⟩

/-- Boolean substring test, characterized as the existence of a
decomposition. -/
theorem strContainsSub_iff (h n : List Char) :
    strContainsSub h n = true ↔ ∃ p t, h = p ++ n ++ t := by
  induction h with
  | nil =>
    cases n with
    | nil =>
      simp only [strContainsSub, List.isEmpty_nil]
      exact ⟨fun _ => ⟨[], [], rfl⟩, fun _ => trivial⟩
    | cons c cs =>
      simp only [strContainsSub, List.isEmpty_cons]
      constructor
      · intro hh; cases hh
      · rintro ⟨p, t, hpt⟩
        exact absurd hpt (by simp)
  | cons x xs ih =>
    simp only [strContainsSub, Bool.or_eq_true, strStartsWith_iff n (x :: xs), ih]
    constructor
    · rintro (⟨t, ht⟩ | ⟨p, t, hpt⟩)
      · exact ⟨[], t, by simpa using ht⟩
      · exact ⟨x :: p, t, by simp [hpt]⟩
    · rintro ⟨p, t, hpt⟩
      cases p with
      | nil => left; exact ⟨t, by simpa using hpt⟩
      | cons y ys =>
        right
        rw [List.cons_append, List.cons_append] at hpt
        injection hpt with h1 h2
        exact ⟨ys, t, by simp [h2]⟩

/-- Claim C3 (amended): the job-likelihood gate accepts a message exactly
when the case-folded concatenation of its subject and body contains one of
the thirteen keywords job, application, applied, interview, offer,
position, role, career, candidate, hiring, recruit, recruiter, opening as
a substring. -/
theorem C3_job_gate_characterization (m : Mail) :
    looks_job_related m = true ↔
      ∃ w ∈ job_like_keywords, ∃ p t,
        pyLowerChars (m.subject ++ " " ++ m.body) = p ++ w.toList ++ t := by
  simp only [looks_job_related, List.any_eq_true]
  constructor
  · rintro ⟨w, hw, hc⟩
    exact ⟨w, hw, (strContainsSub_iff _ _).mp hc⟩
  · rintro ⟨w, hw, p, t, hpt⟩
    exact ⟨w, hw, (strContainsSub_iff _ _).mpr ⟨p, t, hpt⟩⟩

/-- Counterexample to C3 as stated: the message with subject "50% off your
next rental application!" and no job keyword in its body passes the
job-likelihood gate (the subject contains "application") and becomes a
candidate handed to the Extraction Engine. -/
theorem C3_counterexample :
    looks_job_related rentalMail = true ∧
    selectCandidates Option.none [] [rentalMail] = [rentalMail] := by
  constructor
  · rfl
  · rfl

/-- Witness for C3: a subject consisting of the keyword "job" is
accepted. -/
theorem C3_witness : looks_job_related jobMail = true :=
  (C3_job_gate_characterization jobMail).mpr
    ⟨"job", by decide, [], [' '], by decide⟩

/-! ## Lemmas about the Extraction Engine -/

/-- Claim C2 (amended): whenever the parse of the extracted JSON substring
fails with message `e`, the extraction returns — without raising — the
legacy flat dict with relevant=false, reason="Parsing failed", the parse
error recorded under "error", and no "jobs" key at all (so a caller
reading jobs with an empty-list default sees an empty list). -/
theorem C2_parse_failure_shape (jl : JsonLoads) (text e : String)
    (h : jl (extractedJsonText text) = Except.error e) :
    parseLlmText jl text = PyVal.dict (parseFailKvs e) ∧
    dictFind (parseFailKvs e) "relevant" = some (PyVal.bool false) ∧
    dictFind (parseFailKvs e) "reason" = some (PyVal.str "Parsing failed") ∧
    dictFind (parseFailKvs e) "error" = some (PyVal.str e) ∧
    dictFind (parseFailKvs e) "jobs" = Option.none ∧
    dictGetD (parseFailKvs e) "jobs" (PyVal.list []) = PyVal.list [] := by
  refine ⟨?_, rfl, rfl, rfl, rfl, rfl⟩
  simp [parseLlmText, h, parseFailDict]

/-- Witness for C2 on a concrete unparseable model reply. -/
theorem C2_witness :
    parseLlmText (fun _ => Except.error "Expecting value: line 1 column 1 (char 0)")
      "The model returned plain prose."
      = PyVal.dict (parseFailKvs "Expecting value: line 1 column 1 (char 0)") :=
  (C2_parse_failure_shape _ "The model returned plain prose."
    "Expecting value: line 1 column 1 (char 0)" rfl).1

/-- Counterexample to C2 as stated: on unparseable model text the returned
dict records the parse error message under "error" — not the string
"Parsing failed" — and has no "jobs" entry at all. -/
theorem C2_counterexample :
    parseLlmText (fun _ => Except.error "Expecting value: line 1 column 1 (char 0)")
      "The model returned plain prose."
      = PyVal.dict (parseFailKvs "Expecting value: line 1 column 1 (char 0)") ∧
    dictFind (parseFailKvs "Expecting value: line 1 column 1 (char 0)") "jobs"
      = Option.none ∧
    dictFind (parseFailKvs "Expecting value: line 1 column 1 (char 0)") "error"
      = some (PyVal.str "Expecting value: line 1 column 1 (char 0)") ∧
    PyVal.str "Expecting value: line 1 column 1 (char 0)" ≠ PyVal.str "Parsing failed" := by
  refine ⟨rfl, rfl, rfl, ?_⟩
  intro hh
  injection hh with hs
  exact absurd hs (by decide)

/-- Unfolding of one successful loop iteration. -/
theorem extractFrom_ok (jl : JsonLoads) (o : Nat → Outcome) (a fuel : Nat)
    (text : String) (h : o a = Outcome.ok text) :
    extractFrom jl o a (fuel + 1) = parseLlmText jl text := by
  simp only [extractFrom, h]

/-- Unfolding of one loop iteration hitting a provider ClientError. -/
theorem extractFrom_clientErr (jl : JsonLoads) (o : Nat → Outcome)
    (a fuel : Nat) (code : String) (h : o a = Outcome.clientErr code) :
    extractFrom jl o a (fuel + 1) =
      if code = "ThrottlingException" ∧ a < 3 then
        extractFrom jl o (a + 1) fuel
      else failureResult := by
  simp only [extractFrom, h]

/-- Unfolding of one loop iteration hitting any other exception. -/
theorem extractFrom_exc (jl : JsonLoads) (o : Nat → Outcome) (a fuel : Nat)
    (msg : String) (h : o a = Outcome.exc msg) :
    extractFrom jl o a (fuel + 1) = failureResult := by
  simp only [extractFrom, h]

/-- Call counting: a successful iteration. -/
theorem attemptsFrom_ok (o : Nat → Outcome) (a fuel : Nat) (text : String)
    (h : o a = Outcome.ok text) : attemptsFrom o a (fuel + 1) = 1 := by
  simp only [attemptsFrom, h]

/-- Call counting: a ClientError iteration. -/
theorem attemptsFrom_clientErr (o : Nat → Outcome) (a fuel : Nat)
    (code : String) (h : o a = Outcome.clientErr code) :
    attemptsFrom o a (fuel + 1) =
      if code = "ThrottlingException" ∧ a < 3 then
        1 + attemptsFrom o (a + 1) fuel
      else 1 := by
  simp only [attemptsFrom, h]

/-- Call counting: any other exception. -/
theorem attemptsFrom_exc (o : Nat → Outcome) (a fuel : Nat) (msg : String)
    (h : o a = Outcome.exc msg) : attemptsFrom o a (fuel + 1) = 1 := by
  simp only [attemptsFrom, h]

/-- The retry loop makes at most `fuel` provider calls. -/
theorem attemptsFrom_le (o : Nat → Outcome) :
    ∀ (fuel a : Nat), attemptsFrom o a fuel ≤ fuel := by
  intro fuel
  induction fuel with
  | zero => intro a; simp [attemptsFrom]
  | succ f ih =>
    intro a
    cases ho : o a with
    | ok text => rw [attemptsFrom_ok o a f text ho]; omega
    | clientErr code =>
      rw [attemptsFrom_clientErr o a f code ho]
      split
      · have := ih (a + 1); omega
      · omega
    | exc msg => rw [attemptsFrom_exc o a f msg ho]; omega

/-- A second provider call is made only after a throttling error on a
retryable attempt. -/
theorem attemptsFrom_retry_only_throttle (o : Nat → Outcome) (a fuel : Nat)
    (h : 1 < attemptsFrom o a (fuel + 1)) :
    o a = Outcome.clientErr "ThrottlingException" ∧ a < 3 := by
  cases ho : o a with
  | ok text => rw [attemptsFrom_ok o a fuel text ho] at h; omega
  | clientErr code =>
    rw [attemptsFrom_clientErr o a fuel code ho] at h
    by_cases hcond : code = "ThrottlingException" ∧ a < 3
    · exact ⟨by rw [hcond.1], hcond.2⟩
    · rw [if_neg hcond] at h; omega
  | exc msg => rw [attemptsFrom_exc o a fuel msg ho] at h; omega

/-- Claim C5 (amended): the engine makes at most 4 provider calls; a retry
happens only after a throttling error on attempts 0..2; a non-throttling
provider error fails immediately after a single call with the fixed
failure result; exhausting all four attempts on throttling yields that
same fixed failure result; each retry's backoff strictly exceeds the
previous one whatever jitters are drawn; and the fixed failure result is
distinct from every in-band parse-failure dict. -/
theorem C5_retry_policy (jl : JsonLoads) (o : Nat → Outcome) :
    attemptsUsed o ≤ 4 ∧
    (∀ a fuel, 1 < attemptsFrom o a (fuel + 1) →
      o a = Outcome.clientErr "ThrottlingException" ∧ a < 3) ∧
    (∀ code, o 0 = Outcome.clientErr code → code ≠ "ThrottlingException" →
      extract_job_status_claude jl o = failureResult ∧ attemptsUsed o = 1) ∧
    ((∀ a, a ≤ 3 → o a = Outcome.clientErr "ThrottlingException") →
      extract_job_status_claude jl o = failureResult ∧ attemptsUsed o = 4) ∧
    (∀ (a : Nat) (j j2 : ℚ), 0 ≤ j2 → j < 1 →
      backoffDelay a j < backoffDelay (a + 1) j2) ∧
    (∀ e, failureResult ≠ parseFailDict e) := by
  refine ⟨attemptsFrom_le o 4 0, attemptsFrom_retry_only_throttle o, ?_, ?_, ?_, ?_⟩
  · intro code hc hne
    have hcond : ¬ (code = "ThrottlingException" ∧ (0 : Nat) < 3) :=
      fun hh => hne hh.1
    constructor
    · show extractFrom jl o 0 (3 + 1) = failureResult
      rw [extractFrom_clientErr jl o 0 3 code hc, if_neg hcond]
    · show attemptsFrom o 0 (3 + 1) = 1
      rw [attemptsFrom_clientErr o 0 3 code hc, if_neg hcond]
  · intro h
    have h0 := h 0 (by omega)
    have h1 := h 1 (by omega)
    have h2 := h 2 (by omega)
    have h3 := h 3 (by omega)
    constructor
    · show extractFrom jl o 0 (3 + 1) = failureResult
      rw [extractFrom_clientErr jl o 0 3 _ h0, if_pos ⟨rfl, by omega⟩]
      show extractFrom jl o 1 (2 + 1) = failureResult
      rw [extractFrom_clientErr jl o 1 2 _ h1, if_pos ⟨rfl, by omega⟩]
      show extractFrom jl o 2 (1 + 1) = failureResult
      rw [extractFrom_clientErr jl o 2 1 _ h2, if_pos ⟨rfl, by omega⟩]
      show extractFrom jl o 3 (0 + 1) = failureResult
      rw [extractFrom_clientErr jl o 3 0 _ h3,
        if_neg (fun hh => by omega)]
    · show attemptsFrom o 0 (3 + 1) = 4
      rw [attemptsFrom_clientErr o 0 3 _ h0, if_pos ⟨rfl, by omega⟩]
      show 1 + attemptsFrom o 1 (2 + 1) = 4
      rw [attemptsFrom_clientErr o 1 2 _ h1, if_pos ⟨rfl, by omega⟩]
      show 1 + (1 + attemptsFrom o 2 (1 + 1)) = 4
      rw [attemptsFrom_clientErr o 2 1 _ h2, if_pos ⟨rfl, by omega⟩]
      show 1 + (1 + (1 + attemptsFrom o 3 (0 + 1))) = 4
      rw [attemptsFrom_clientErr o 3 0 _ h3,
        if_neg (fun hh => by omega)]
  · intro a j j2 hj2 hj
    simp only [backoffDelay]
    push_cast
    linarith
  · intro e hh
    injection hh with hl
    have hlen : (4 : Nat) = 7 := by
      simpa [parseFailKvs] using congrArg List.length hl
    exact absurd hlen (by norm_num)

/-- Witness for C5: a schedule that throttles every attempt exhausts four
calls and yields the fixed failure result; a later backoff strictly
exceeds an earlier one with concrete jitters. -/
theorem C5_witness :
    extract_job_status_claude (fun _ => Except.ok PyVal.none)
        (fun _ => Outcome.clientErr "ThrottlingException") = failureResult ∧
    attemptsUsed (fun _ => Outcome.clientErr "ThrottlingException") = 4 ∧
    backoffDelay 0 (1 / 2) < backoffDelay 1 (1 / 4) := by
  have h := C5_retry_policy (fun _ => Except.ok PyVal.none)
    (fun _ => Outcome.clientErr "ThrottlingException")
  exact ⟨(h.2.2.2.1 fun a ha => rfl).1, (h.2.2.2.1 fun a ha => rfl).2,
    h.2.2.2.2.1 0 (1 / 2) (1 / 4) (by norm_num) (by norm_num)⟩

/-- Counterexample to C5 as stated: exhausting the retries yields the
fixed failure result, which is not the same dict an in-band parse failure
produces (different keys and a different "error" value). -/
theorem C5_counterexample :
    extract_job_status_claude (fun _ => Except.error "Expecting value")
        (fun _ => Outcome.clientErr "ThrottlingException") = failureResult ∧
    parseLlmText (fun _ : String => Except.error "Expecting value")
        "no JSON in this reply" = PyVal.dict (parseFailKvs "Expecting value") ∧
    failureResult ≠ PyVal.dict (parseFailKvs "Expecting value") := by
  refine ⟨rfl, rfl, ?_⟩
  intro hh
  injection hh with hl
  exact absurd (congrArg List.length hl) (by decide)

/-! ## Lemmas about the email upsert -/

/-- Applying the conflict-update to a list keeps the found row found, and
updates it. -/
theorem find_upd_of_find (E : List EmailRec) (c e : EmailRec)
    (h : E.find? (fun x => x.id = c.id) = some e) :
    (E.map fun x => if x.id = c.id then applyUpd c x else x).find?
      (fun x => x.id = c.id) = some (applyUpd c e) := by
  induction E with
  | nil => simp at h
  | cons x xs ih =>
    by_cases hx : x.id = c.id
    · rw [List.find?_cons_of_pos _ (by simpa using hx)] at h
      injection h with h
      subst h
      rw [List.map_cons, if_pos hx]
      exact List.find?_cons_of_pos _ (by simpa using hx)
    · rw [List.find?_cons_of_neg _ (by simpa using hx)] at h
      rw [List.map_cons, if_neg hx]
      rw [List.find?_cons_of_neg _ (by simpa using hx)]
      exact ih h

/-- Claim C4 (amended): for a row whose message id already exists in the
emails table, save_rows updates that Email row in place, overwriting
subject, sender, date_email_iso, company, job_title, status, parsed_date,
reason and error with the incoming (cleaned) values — but email_num and
date_email are not in the ON CONFLICT update clause and keep their
previous values. -/
theorem C4_upsert_updates_in_place (db : DB) (r : RowIn) (e : EmailRec)
    (h : db.emails.find? (fun x => x.id = r.id) = some e) :
    ∃ e2, (saveRows db [r]).emails.find? (fun x => x.id = r.id) = some e2 ∧
      e2.subject = pyClean r.subject ∧
      e2.sender = pyClean r.fromAddr ∧
      e2.date_email_iso = pyClean r.date_email_iso ∧
      e2.company = pyClean r.company ∧
      e2.job_title = pyClean r.job_title ∧
      e2.status = pyClean r.status ∧
      e2.parsed_date = pyClean r.parsed_date ∧
      e2.reason = pyClean r.reason ∧
      e2.error = pyClean r.error ∧
      e2.email_num = e.email_num ∧
      e2.date_email = e.date_email := by
  have hemails : (saveRows db [r]).emails = upsertEmail db.emails (cleanRow r) := by
    simp [saveRows]
  have hany : (db.emails.any fun x => x.id = (cleanRow r).id) = true := by
    rw [List.any_eq_true]
    refine ⟨e, List.mem_of_find?_eq_some h, ?_⟩
    simpa using List.find?_some h
  refine ⟨applyUpd (cleanRow r) e, ?_, rfl, rfl, rfl, rfl, rfl, rfl, rfl,
    rfl, rfl, rfl, rfl⟩
  rw [hemails]
  unfold upsertEmail
  rw [if_pos hany]
  exact find_upd_of_find db.emails (cleanRow r) e h

/-- Witness for C4 at a concrete database and row. -/
theorem C4_witness :
    ∃ e2, (saveRows dbC4 [rowC4]).emails.find? (fun x => x.id = rowC4.id)
        = some e2 ∧
      e2.subject = pyClean rowC4.subject ∧
      e2.sender = pyClean rowC4.fromAddr ∧
      e2.date_email_iso = pyClean rowC4.date_email_iso ∧
      e2.company = pyClean rowC4.company ∧
      e2.job_title = pyClean rowC4.job_title ∧
      e2.status = pyClean rowC4.status ∧
      e2.parsed_date = pyClean rowC4.parsed_date ∧
      e2.reason = pyClean rowC4.reason ∧
      e2.error = pyClean rowC4.error ∧
      e2.email_num = e0C4.email_num ∧
      e2.date_email = e0C4.date_email :=
  C4_upsert_updates_in_place dbC4 rowC4 e0C4 rfl

/-- Counterexample to C4 as stated: reprocessing "m1" with email_num 2 and
a new date header leaves email_num 1 and the old date in place (while
subject is overwritten), so not every mutable column is overwritten. -/
theorem C4_counterexample :
    ((saveRows dbC4 [rowC4]).emails.map fun e => e.email_num) = [PyVal.int 1] ∧
    ((saveRows dbC4 [rowC4]).emails.map fun e => e.date_email)
      = [PyVal.str "old-date"] ∧
    ((saveRows dbC4 [rowC4]).emails.map fun e => e.subject)
      = [PyVal.str "new-subject"] ∧
    rowC4.email_num = PyVal.int 2 ∧
    rowC4.date_email = PyVal.str "new-date" ∧
    PyVal.int 1 ≠ PyVal.int 2 := by
  refine ⟨rfl, rfl, rfl, rfl, rfl, ?_⟩
  intro hh
  injection hh with h1
  exact absurd h1 (by norm_num)

/-! ## Lemmas about the run driver checkpoint -/

/-- The filter loop is the before-sentinel prefix filtered by the two
gates. -/
theorem selectCandidates_eq_spec (lastId : Option String)
    (bl : List String) :
    ∀ ms : List Mail,
      selectCandidates lastId bl ms = specCandidates lastId bl ms := by
  intro ms
  induction ms with
  | nil => rfl
  | cons m ms ih =>
    by_cases hs : isSentinel lastId m = true
    · simp [selectCandidates, specCandidates, hs]
    · have hs2 : isSentinel lastId m = false := by
        simpa using hs
      by_cases hb : contains_blacklist_keywords m bl = true
      · simpa [selectCandidates, specCandidates, hs2, hb] using ih
      · have hb2 : contains_blacklist_keywords m bl = false := by
          simpa using hb
        by_cases hj : looks_job_related m = true
        · simpa [selectCandidates, specCandidates, hs2, hb2, hj] using ih
        · have hj2 : looks_job_related m = false := by simpa using hj
          simpa [selectCandidates, specCandidates, hs2, hb2, hj2] using ih

/-- Claim C8 (amended): every batch writes the page-token file with the
new token (or empty).  The sentinel file is written only when the batch
saved at least one row, and then it records the id of the last surviving
candidate — the oldest message that passed the sentinel check and both
gates — not the id of the oldest fetched message. -/
theorem C8_checkpoint (lastId : Option String) (bl : List String)
    (res : Mail → List (String × PyVal)) (mails : List Mail)
    (tok : Option String) :
    (checkpointOf lastId bl res mails tok).pageTokenFile = tok.getD "" ∧
    selectCandidates lastId bl mails = specCandidates lastId bl mails ∧
    (outputRows res (selectCandidates lastId bl mails) = [] →
      (checkpointOf lastId bl res mails tok).lastProcessedId
        = Option.none) ∧
    (∀ m, outputRows res (selectCandidates lastId bl mails) ≠ [] →
      (selectCandidates lastId bl mails).getLast? = some m → m.id ≠ "" →
      (checkpointOf lastId bl res mails tok).lastProcessedId = some m.id) := by
  refine ⟨rfl, selectCandidates_eq_spec lastId bl mails, ?_, ?_⟩
  · intro h
    simp [checkpointOf, h]
  · intro m hne hlast hid
    have hempty : (outputRows res (selectCandidates lastId bl mails)).isEmpty
        = false := by
      rcases hh : (outputRows res (selectCandidates lastId bl mails)).isEmpty with _ | _
      · rfl
      · exact absurd (List.isEmpty_iff.mp hh) hne
    simp [checkpointOf, hempty, hlast, hid]

/-- Witness for C8: one relevant candidate makes the sentinel file record
its id, and the page token is persisted. -/
theorem C8_witness :
    (checkpointOf Option.none [] resTrueC8 [mailC8w]
      (some "page-token-7")).lastProcessedId = some mailC8w.id ∧
    (checkpointOf Option.none [] resTrueC8 [mailC8w]
      (some "page-token-7")).pageTokenFile = "page-token-7" :=
  ⟨(C8_checkpoint Option.none [] resTrueC8 [mailC8w] (some "page-token-7")).2.2.2
      mailC8w (by decide) (by decide) (by decide),
    (C8_checkpoint Option.none [] resTrueC8 [mailC8w] (some "page-token-7")).1⟩

/-- Counterexample to C8 as stated.  First batch: a processed candidate
classified not relevant leaves the sentinel file unwritten, although the
batch and its candidate list are nonempty.  Second batch: when the last
fetched message fails the prefilter, the sentinel records the id of the
last candidate ("c8w"), not the id of the oldest fetched message
("m2"). -/
theorem C8_counterexample :
    selectCandidates Option.none [] [mailC8] = [mailC8] ∧
    (checkpointOf Option.none [] resFalseC8 [mailC8]
      (some "tok-2")).lastProcessedId = Option.none ∧
    (checkpointOf Option.none [] resFalseC8 [mailC8]
      (some "tok-2")).pageTokenFile = "tok-2" ∧
    (checkpointOf Option.none [] resTrueC8 [mailC8w, mailC8b]
      Option.none).lastProcessedId = some "c8w" ∧
    [mailC8w, mailC8b].getLast? = some mailC8b ∧
    mailC8b.id = "m2" ∧
    ("m2" : String) ≠ "c8w" := by
  refine ⟨rfl, rfl, rfl, rfl, rfl, rfl, by decide⟩

/-! ## A normal form for the batch email upsert

Folding `upsertEmail` over a batch equals: patch every pre-existing row
with the last batch row carrying its id, and append the first occurrences
of fresh ids (each patched the same way).  This characterization yields
idempotence of the email upsert for arbitrary batches. -/

/-- Conflict-updates absorb: only the last one for an id matters. -/
theorem applyUpd_applyUpd (a b e : EmailRec) :
    applyUpd a (applyUpd b e) = applyUpd a e := rfl

/-- A conflict-update of a row by itself is the row. -/
theorem applyUpd_self (c : EmailRec) : applyUpd c c = c := rfl

/-- A conflict-update does not change the primary key. -/
theorem applyUpd_keeps_id (c e : EmailRec) : (applyUpd c e).id = e.id := rfl

/-- Unfolding of `lastFor` on a cons. -/
theorem lastFor_cons (c : EmailRec) (cs : List EmailRec) (i : String) :
    lastFor (c :: cs) i =
      match lastFor cs i with
      | some r => some r
      | Option.none => if c.id = i then some c else Option.none := rfl

/-- A head row with another id does not affect `lastFor`. -/
theorem lastFor_cons_ne (c : EmailRec) (cs : List EmailRec) (i : String)
    (h : c.id ≠ i) : lastFor (c :: cs) i = lastFor cs i := by
  rw [lastFor_cons]
  cases lastFor cs i with
  | some r => rfl
  | none => simp [h]

/-- Patching does not change the primary key. -/
theorem patch_id (cs : List EmailRec) (e : EmailRec) :
    (patch cs e).id = e.id := by
  unfold patch
  cases lastFor cs e.id <;> rfl

/-- Patching twice is patching once. -/
theorem patch_patch (cs : List EmailRec) (e : EmailRec) :
    patch cs (patch cs e) = patch cs e := by
  cases hl : lastFor cs e.id with
  | some c =>
    have he : patch cs e = applyUpd c e := by unfold patch; rw [hl]
    have hp : patch cs (applyUpd c e) = applyUpd c (applyUpd c e) := by
      unfold patch
      rw [show (applyUpd c e).id = e.id from rfl, hl]
    rw [he, hp, applyUpd_applyUpd]
  | none =>
    have he : patch cs e = e := by unfold patch; rw [hl]
    rw [he]
    exact he

/-- Rows with ids not in the batch are not patched. -/
theorem patch_cons_ne (c : EmailRec) (cs : List EmailRec) (e : EmailRec)
    (h : c.id ≠ e.id) : patch (c :: cs) e = patch cs e := by
  unfold patch
  rw [lastFor_cons_ne c cs e.id h]

/-- Patching the batch head by the whole batch: the head row is already
the value its own conflict-update would produce. -/
theorem patch_cons_self (c : EmailRec) (cs : List EmailRec) :
    patch cs c = patch (c :: cs) c := by
  cases hl : lastFor cs c.id with
  | some r =>
    have h1 : patch cs c = applyUpd r c := by unfold patch; rw [hl]
    have h2 : lastFor (c :: cs) c.id = some r := by rw [lastFor_cons, hl]
    have h3 : patch (c :: cs) c = applyUpd r c := by unfold patch; rw [h2]
    rw [h1, h3]
  | none =>
    have h1 : patch cs c = c := by unfold patch; rw [hl]
    have h2 : lastFor (c :: cs) c.id = some c := by
      rw [lastFor_cons, hl]; simp
    have h3 : patch (c :: cs) c = applyUpd c c := by unfold patch; rw [h2]
    rw [h1, h3, applyUpd_self]

/-- Patching after the head's conflict-update equals patching by the whole
batch. -/
theorem patch_upd_eq (c : EmailRec) (cs : List EmailRec) (e : EmailRec) :
    patch cs (if e.id = c.id then applyUpd c e else e) = patch (c :: cs) e := by
  by_cases h : e.id = c.id
  · rw [if_pos h]
    cases hl : lastFor cs e.id with
    | some r =>
      have h1 : patch cs (applyUpd c e) = applyUpd r (applyUpd c e) := by
        unfold patch
        rw [show (applyUpd c e).id = e.id from rfl, hl]
      have h2 : lastFor (c :: cs) e.id = some r := by rw [lastFor_cons, hl]
      have h3 : patch (c :: cs) e = applyUpd r e := by unfold patch; rw [h2]
      rw [h1, h3, applyUpd_applyUpd]
    | none =>
      have h1 : patch cs (applyUpd c e) = applyUpd c e := by
        unfold patch
        rw [show (applyUpd c e).id = e.id from rfl, hl]
      have h2 : lastFor (c :: cs) e.id = some c := by
        rw [lastFor_cons, hl]; simp [h.symm]
      have h3 : patch (c :: cs) e = applyUpd c e := by unfold patch; rw [h2]
      rw [h1, h3]
  · rw [if_neg h]
    exact (patch_cons_ne c cs e fun hh => h hh.symm).symm

/-- Unfolding of `freshAux` on a cons. -/
theorem freshAux_cons (seen : List String) (c : EmailRec)
    (cs : List EmailRec) :
    freshAux seen (c :: cs) =
      if c.id ∈ seen then freshAux seen cs
      else c :: freshAux (c.id :: seen) cs := rfl

/-- Fresh rows have ids outside `seen`. -/
theorem freshAux_not_mem (cs : List EmailRec) :
    ∀ (seen : List String) (f : EmailRec), f ∈ freshAux seen cs →
      f.id ∉ seen := by
  induction cs with
  | nil => intro seen f hf; cases hf
  | cons c cs ih =>
    intro seen f hf
    by_cases hc : c.id ∈ seen
    · rw [freshAux_cons, if_pos hc] at hf
      exact ih seen f hf
    · rw [freshAux_cons, if_neg hc] at hf
      rcases List.mem_cons.mp hf with rfl | hf2
      · exact hc
      · exact fun hs => ih (c.id :: seen) f hf2 (List.mem_cons_of_mem _ hs)

/-- The fresh rows depend only on the membership of `seen`. -/
theorem freshAux_congr (cs : List EmailRec) :
    ∀ (s t : List String), (∀ x : String, x ∈ s ↔ x ∈ t) →
      freshAux s cs = freshAux t cs := by
  induction cs with
  | nil => intro s t _; rfl
  | cons c cs ih =>
    intro s t hst
    by_cases hc : c.id ∈ s
    · have hct : c.id ∈ t := (hst c.id).mp hc
      rw [freshAux_cons, freshAux_cons, if_pos hc, if_pos hct]
      exact ih s t hst
    · have hct : c.id ∉ t := fun hh => hc ((hst c.id).mpr hh)
      rw [freshAux_cons, freshAux_cons, if_neg hc, if_neg hct]
      rw [ih (c.id :: s) (c.id :: t) fun x => by simp [hst x]]

/-- No fresh rows when every batch id is already seen. -/
theorem freshAux_nil_of_all (cs : List EmailRec) (seen : List String)
    (h : ∀ c ∈ cs, c.id ∈ seen) : freshAux seen cs = [] := by
  induction cs with
  | nil => rfl
  | cons c cs ih =>
    rw [freshAux_cons, if_pos (h c (List.mem_cons_self c cs))]
    exact ih fun x hx => h x (List.mem_cons_of_mem _ hx)

/-- A batch row's id that is not yet seen shows up among the fresh ids. -/
theorem mem_freshAux_ids (cs : List EmailRec) :
    ∀ (seen : List String) (c : EmailRec), c ∈ cs → c.id ∉ seen →
      c.id ∈ idsOf (freshAux seen cs) := by
  induction cs with
  | nil => intro seen c hc; cases hc
  | cons x xs ih =>
    intro seen c hc hns
    by_cases hx : x.id ∈ seen
    · rw [freshAux_cons, if_pos hx]
      rcases List.mem_cons.mp hc with rfl | hc2
      · exact absurd hx hns
      · exact ih seen c hc2 hns
    · rw [freshAux_cons, if_neg hx]
      rcases List.mem_cons.mp hc with rfl | hc2
      · exact List.mem_cons_self _ _
      · by_cases hcx : c.id = x.id
        · rw [hcx]; exact List.mem_cons_self _ _
        · refine List.mem_cons_of_mem _ ?_
          exact ih (x.id :: seen) c hc2 (by simp [hcx, hns])

/-- Ids of an appended table. -/
theorem idsOf_append (E F : List EmailRec) :
    idsOf (E ++ F) = idsOf E ++ idsOf F :=
  List.map_append _ E F

/-- A conflict-update pass keeps the table's id column. -/
theorem idsOf_map_upd (E : List EmailRec) (c : EmailRec) :
    idsOf (E.map fun e => if e.id = c.id then applyUpd c e else e)
      = idsOf E := by
  unfold idsOf
  rw [List.map_map]
  apply List.map_congr_left
  intro e _
  show (if e.id = c.id then applyUpd c e else e).id = e.id
  by_cases h : e.id = c.id
  · rw [if_pos h]
    exact applyUpd_keeps_id c e
  · rw [if_neg h]

/-- A patch pass keeps the table's id column. -/
theorem idsOf_map_patch (cs E : List EmailRec) :
    idsOf (E.map (patch cs)) = idsOf E := by
  unfold idsOf
  rw [List.map_map]
  apply List.map_congr_left
  intro e _
  show (patch cs e).id = e.id
  exact patch_id cs e

/-- Normal form of the batch email upsert. -/
theorem upsert_foldl_nf :
    ∀ (cs E : List EmailRec),
      List.foldl upsertEmail E cs
        = (E ++ freshAux (idsOf E) cs).map (patch cs) := by
  intro cs
  induction cs with
  | nil =>
    intro E
    show E = (E ++ freshAux (idsOf E) []).map (patch [])
    rw [show freshAux (idsOf E) [] = [] from rfl, List.append_nil]
    have h : ∀ e ∈ E, patch [] e = e := fun e _ => rfl
    rw [List.map_congr_left h, List.map_id']
  | cons c cs ih =>
    intro E
    rw [List.foldl_cons, ih (upsertEmail E c)]
    by_cases hc : (E.any fun e => e.id = c.id) = true
    · have hmem : c.id ∈ idsOf E := by
        rw [List.any_eq_true] at hc
        obtain ⟨e, he, hid⟩ := hc
        exact List.mem_map.mpr ⟨e, he, by simpa using hid⟩
      have hup : upsertEmail E c
          = E.map fun e => if e.id = c.id then applyUpd c e else e := by
        unfold upsertEmail; rw [if_pos hc]
      have hfr : freshAux (idsOf E) (c :: cs) = freshAux (idsOf E) cs := by
        rw [freshAux_cons, if_pos hmem]
      rw [hup, idsOf_map_upd, hfr, List.map_append, List.map_append,
        List.map_map]
      congr 1
      · apply List.map_congr_left
        intro e _
        exact patch_upd_eq c cs e
      · apply List.map_congr_left
        intro f hf
        have hne : c.id ≠ f.id := by
          intro hh
          exact freshAux_not_mem cs (idsOf E) f hf (hh ▸ hmem)
        exact (patch_cons_ne c cs f hne).symm
    · have hnm : c.id ∉ idsOf E := by
        intro hmem
        obtain ⟨e, he, hid⟩ := List.mem_map.mp hmem
        exact hc (List.any_eq_true.mpr ⟨e, he, by simpa using hid⟩)
      have hup : upsertEmail E c = E ++ [c] := by
        unfold upsertEmail; rw [if_neg hc]
      have hfr3 : freshAux (idsOf E) (c :: cs)
          = c :: freshAux (c.id :: idsOf E) cs := by
        rw [freshAux_cons, if_neg hnm]
      have hfr2 : freshAux (idsOf (E ++ [c])) cs
          = freshAux (c.id :: idsOf E) cs := by
        apply freshAux_congr
        intro x
        rw [idsOf_append]
        show x ∈ idsOf E ++ [c.id] ↔ x ∈ c.id :: idsOf E
        simp [List.mem_append, or_comm]
      rw [hup, hfr2, hfr3, List.append_assoc, List.singleton_append,
        List.map_append, List.map_append, List.map_cons, List.map_cons]
      congr 1
      · apply List.map_congr_left
        intro e he
        have hne : c.id ≠ e.id := by
          intro hh
          exact hnm (hh ▸ List.mem_map.mpr ⟨e, he, rfl⟩)
        exact (patch_cons_ne c cs e hne).symm
      · congr 1
        · exact patch_cons_self c cs
        · apply List.map_congr_left
          intro f hf
          have h1 : f.id ∉ c.id :: idsOf E :=
            freshAux_not_mem cs (c.id :: idsOf E) f hf
          have hne : c.id ≠ f.id := fun hh => h1 (by simp [hh.symm])
          exact (patch_cons_ne c cs f hne).symm

/-- Every batch id appears in the table after the batch upsert. -/
theorem foldl_upsert_ids_sup (cs E : List EmailRec) (c : EmailRec)
    (hm : c ∈ cs) : c.id ∈ idsOf (List.foldl upsertEmail E cs) := by
  rw [upsert_foldl_nf, idsOf_map_patch, idsOf_append]
  by_cases h : c.id ∈ idsOf E
  · exact List.mem_append.mpr (Or.inl h)
  · exact List.mem_append.mpr (Or.inr (mem_freshAux_ids cs (idsOf E) c hm h))

/-- The batch email upsert is idempotent (arbitrary batches, duplicate
ids included). -/
theorem upsert_foldl_idem (cs E : List EmailRec) :
    List.foldl upsertEmail (List.foldl upsertEmail E cs) cs
      = List.foldl upsertEmail E cs := by
  rw [upsert_foldl_nf cs (List.foldl upsertEmail E cs),
    freshAux_nil_of_all cs _ fun c hc => foldl_upsert_ids_sup cs E c hc,
    List.append_nil]
  conv_lhs => rw [upsert_foldl_nf cs E]
  conv_rhs => rw [upsert_foldl_nf cs E]
  rw [List.map_map]
  apply List.map_congr_left
  intro e _
  exact patch_patch cs e

/-! ## Field equations of the batch save -/

/-- An empty batch does not touch the database. -/
theorem saveRows_nil (db : DB) : saveRows db [] = db := rfl

/-- The emails table after a nonempty batch. -/
theorem saveRows_emails (db : DB) (rows : List RowIn)
    (h : rows.isEmpty = false) :
    (saveRows db rows).emails
      = List.foldl upsertEmail db.emails (rows.map cleanRow) := by
  unfold saveRows
  rw [h]
  rfl

/-- The applications table after a nonempty batch. -/
theorem saveRows_apps (db : DB) (rows : List RowIn)
    (h : rows.isEmpty = false) :
    (saveRows db rows).apps
      = (db.apps.filter fun a =>
          !(((rows.map cleanRow).map fun c => c.id).contains a.email_id))
        ++ numberFrom db.nextAppId (buildApps rows) := by
  unfold saveRows
  rw [h]
  rfl

/-- The next AUTOINCREMENT id after a nonempty batch. -/
theorem saveRows_nextAppId (db : DB) (rows : List RowIn)
    (h : rows.isEmpty = false) :
    (saveRows db rows).nextAppId = db.nextAppId + (buildApps rows).length := by
  unfold saveRows
  rw [h]
  rfl

/-- Cleaning does not change row ids, so the delete list is the batch's id
list. -/
theorem emailIds_eq (rows : List RowIn) :
    ((rows.map cleanRow).map fun c => c.id) = rows.map fun r => r.id := by
  rw [List.map_map]
  rfl

/-! ## Lemmas about the applications rebuild -/

/-- Membership in an iterated append. -/
theorem mem_foldr_append {α β : Type} (f : α → List β) :
    ∀ (l : List α) (b : β),
      b ∈ List.foldr (fun r acc => f r ++ acc) [] l → ∃ r ∈ l, b ∈ f r := by
  intro l
  induction l with
  | nil => intro b hb; cases hb
  | cons x xs ih =>
    intro b hb
    rw [List.foldr_cons] at hb
    rcases List.mem_append.mp hb with h1 | h2
    · exact ⟨x, List.mem_cons_self _ _, h1⟩
    · obtain ⟨r, hr, hbr⟩ := ih b h2
      exact ⟨r, List.mem_cons_of_mem _ hr, hbr⟩

/-- Every application row built from one input row carries that row's
email id. -/
theorem appColsOf_email_id (abe : List (String × List AppDict)) (r : RowIn) :
    ∀ a ∈ appColsOf abe r, a.email_id = r.id := by
  intro a ha
  simp only [appColsOf] at ha
  obtain ⟨x, _, rfl⟩ := List.mem_map.mp ha
  rfl

/-- Every built application row carries the email id of some batch row. -/
theorem mem_buildApps_email_id (rows : List RowIn) (a : AppCols)
    (ha : a ∈ buildApps rows) : a.email_id ∈ rows.map fun r => r.id := by
  unfold buildApps at ha
  obtain ⟨r, hr, har⟩ := mem_foldr_append _ rows a ha
  exact List.mem_map.mpr ⟨r, hr, (appColsOf_email_id _ r a har).symm⟩

/-- Unfolding of the insert numbering on a cons. -/
theorem numberFrom_cons (n : Nat) (c : AppCols) (cs : List AppCols) :
    numberFrom n (c :: cs)
      = { rowid := n, email_id := c.email_id, company := c.company,
          job_title := c.job_title, status := c.status,
          parsed_date := c.parsed_date, reason := c.reason,
          error := c.error } :: numberFrom (n + 1) cs := rfl

/-- Inserting assigns the ids and keeps the content. -/
theorem numberFrom_map_strip (cs : List AppCols) :
    ∀ n, (numberFrom n cs).map stripRowid = cs := by
  induction cs with
  | nil => intro n; rfl
  | cons c cs ih =>
    intro n
    rw [numberFrom_cons, List.map_cons, ih (n + 1)]
    rfl

/-- Freshly inserted application rows carry ids at or above the insertion
start. -/
theorem numberFrom_rowid_ge (cs : List AppCols) :
    ∀ (n : Nat) (a : AppRec), a ∈ numberFrom n cs → n ≤ a.rowid := by
  induction cs with
  | nil => intro n a ha; cases ha
  | cons c cs ih =>
    intro n a ha
    rw [numberFrom_cons] at ha
    rcases List.mem_cons.mp ha with rfl | h2
    · exact Nat.le_refl n
    · have := ih (n + 1) a h2
      omega

/-- Every freshly inserted application row takes its email id from the
built content. -/
theorem numberFrom_email_ids (cs : List AppCols) :
    ∀ (n : Nat) (a : AppRec), a ∈ numberFrom n cs →
      ∃ c ∈ cs, a.email_id = c.email_id := by
  induction cs with
  | nil => intro n a ha; cases ha
  | cons c cs ih =>
    intro n a ha
    rw [numberFrom_cons] at ha
    rcases List.mem_cons.mp ha with rfl | h2
    · exact ⟨c, List.mem_cons_self _ _, rfl⟩
    · obtain ⟨c2, hc2, he⟩ := ih (n + 1) a h2
      exact ⟨c2, List.mem_cons_of_mem _ hc2, he⟩

/-- Numbering application rows preserves counts per email id. -/
theorem numberFrom_filter_len (cs : List AppCols) (i : String) :
    ∀ n, ((numberFrom n cs).filter fun a => a.email_id = i).length
      = (cs.filter fun c => c.email_id = i).length := by
  induction cs with
  | nil => intro n; rfl
  | cons c cs ih =>
    intro n
    rw [numberFrom_cons]
    by_cases h : c.email_id = i
    · simp [List.filter_cons, h, ih (n + 1)]
    · simp [List.filter_cons, h, ih (n + 1)]

/-- Claim C6 (amended): re-running save_rows with identical input leaves
the emails table unchanged, and leaves the applications table unchanged in
content, count and order — but not identically: the application rows are
deleted and reinserted, so their surrogate AUTOINCREMENT ids (and the next
id) advance. -/
theorem C6_idempotent_content (db : DB) (rows : List RowIn) :
    (saveRows (saveRows db rows) rows).emails = (saveRows db rows).emails ∧
    (saveRows (saveRows db rows) rows).apps.map stripRowid
      = (saveRows db rows).apps.map stripRowid := by
  by_cases hnil : rows.isEmpty = true
  · have h0 : rows = [] := List.isEmpty_iff.mp hnil
    subst h0
    exact ⟨rfl, rfl⟩
  · have hE : rows.isEmpty = false := by simpa using hnil
    constructor
    · rw [saveRows_emails (saveRows db rows) rows hE,
        saveRows_emails db rows hE, upsert_foldl_idem]
    · rw [saveRows_apps (saveRows db rows) rows hE, saveRows_apps db rows hE,
        List.filter_append]
      have hFF : ((db.apps.filter fun a =>
            !(((rows.map cleanRow).map fun c => c.id).contains a.email_id)).filter
              fun a =>
            !(((rows.map cleanRow).map fun c => c.id).contains a.email_id))
          = db.apps.filter fun a =>
            !(((rows.map cleanRow).map fun c => c.id).contains a.email_id) := by
        apply List.filter_eq_self.mpr
        intro a ha
        exact (List.mem_filter.mp ha).2
      have hN1 : ((numberFrom db.nextAppId (buildApps rows)).filter fun a =>
            !(((rows.map cleanRow).map fun c => c.id).contains a.email_id))
          = [] := by
        apply List.filter_eq_nil_iff.mpr
        intro a ha
        obtain ⟨c, hc, he⟩ := numberFrom_email_ids (buildApps rows) _ a ha
        have hmem : a.email_id ∈ (rows.map cleanRow).map fun c => c.id := by
          rw [emailIds_eq, he]
          exact mem_buildApps_email_id rows c hc
        have hcontains := List.elem_eq_true_of_mem hmem
        intro hp
        rw [show ((rows.map cleanRow).map fun c => c.id).contains a.email_id
            = true from hcontains] at hp
        exact absurd hp (by decide)
      rw [hFF, hN1, List.append_nil, List.map_append, List.map_append,
        numberFrom_map_strip, numberFrom_map_strip]

/-- Counterexample to C6 as stated: a second identical call leaves a
different database — the application row is re-created under a fresh
surrogate id (1 becomes 2) and the AUTOINCREMENT counter advances. -/
theorem C6_counterexample :
    ((saveRows emptyDB [rowC6]).apps.map fun a => a.rowid) = [1] ∧
    (saveRows emptyDB [rowC6]).nextAppId = 2 ∧
    ((saveRows (saveRows emptyDB [rowC6]) [rowC6]).apps.map fun a => a.rowid)
      = [2] ∧
    (saveRows (saveRows emptyDB [rowC6]) [rowC6]).nextAppId = 3 ∧
    saveRows (saveRows emptyDB [rowC6]) [rowC6] ≠ saveRows emptyDB [rowC6] := by
  refine ⟨rfl, rfl, rfl, rfl, ?_⟩
  intro hh
  exact absurd (congrArg (fun d => d.nextAppId) hh) (by decide)

/-! ## Lemmas about the applications-by-email dict and per-id counts -/

/-- Unfolding of `abeFind` on a cons. -/
theorem abeFind_cons (k1 : String) (v1 : List AppDict)
    (rest : List (String × List AppDict)) (key : String) :
    abeFind ((k1, v1) :: rest) key
      = if k1 = key then some v1 else abeFind rest key := rfl

/-- Unfolding of `dictInsert` on a cons. -/
theorem dictInsert_cons (k1 : String) (v1 : List AppDict)
    (rest : List (String × List AppDict)) (k : String) (v : List AppDict) :
    dictInsert ((k1, v1) :: rest) k v
      = if k1 = k then (k, v) :: rest
        else (k1, v1) :: dictInsert rest k v := rfl

/-- Lookup after a dict assignment. -/
theorem abeFind_dictInsert (d : List (String × List AppDict)) (k : String)
    (v : List AppDict) (key : String) :
    abeFind (dictInsert d k v) key
      = if key = k then some v else abeFind d key := by
  induction d with
  | nil =>
    by_cases h : key = k
    · subst h
      simp [dictInsert, abeFind]
    · simp [dictInsert, abeFind, h, Ne.symm h]
  | cons p rest ih =>
    obtain ⟨k1, v1⟩ := p
    by_cases h1 : k1 = k
    · rw [dictInsert_cons, if_pos h1]
      by_cases h : key = k
      · subst h
        rw [abeFind_cons, if_pos rfl, if_pos rfl]
      · rw [abeFind_cons, if_neg (fun hh => h hh.symm), if_neg h,
          abeFind_cons, if_neg (fun hh => h (h1 ▸ hh).symm)]
    · rw [dictInsert_cons, if_neg h1]
      by_cases h2 : k1 = key
      · have hkk : key ≠ k := fun hh => h1 (h2.trans hh)
        rw [abeFind_cons, if_pos h2, if_neg hkk, abeFind_cons, if_pos h2]
      · rw [abeFind_cons, if_neg h2, ih]
        by_cases h : key = k
        · rw [if_pos h, if_pos h]
        · rw [if_neg h, if_neg h, abeFind_cons, if_neg h2]

/-- Folding assignments for other ids does not disturb a binding. -/
theorem abeFind_foldl_preserve (xs : List RowIn) :
    ∀ (d : List (String × List AppDict)) (i : String),
      (∀ y ∈ xs, y.id ≠ i) →
      abeFind (List.foldl (fun d r => dictInsert d r.id r.applications) d xs) i
        = abeFind d i := by
  induction xs with
  | nil => intro d i _; rfl
  | cons y ys ih =>
    intro d i h
    rw [List.foldl_cons, ih _ i fun z hz => h z (List.mem_cons_of_mem _ hz),
      abeFind_dictInsert,
      if_neg fun hh => h y (List.mem_cons_self _ _) hh.symm]

/-- In a batch with pairwise-distinct ids, the applications-by-email dict
binds each row's id to that row's extracted mentions. -/
theorem abeFind_foldl (rows : List RowIn) :
    ∀ (d : List (String × List AppDict)) (r : RowIn), r ∈ rows →
      (rows.map fun x => x.id).Nodup →
      abeFind (List.foldl (fun d r => dictInsert d r.id r.applications) d rows)
          r.id
        = some r.applications := by
  induction rows with
  | nil => intro d r hr; cases hr
  | cons x xs ih =>
    intro d r hr hnd
    rw [List.map_cons, List.nodup_cons] at hnd
    rw [List.foldl_cons]
    rcases List.mem_cons.mp hr with rfl | hr2
    · have hne : ∀ y ∈ xs, y.id ≠ r.id := fun y hy hid =>
        hnd.1 (List.mem_map.mpr ⟨y, hy, hid⟩)
      rw [abeFind_foldl_preserve xs _ r.id hne, abeFind_dictInsert,
        if_pos rfl]
    · exact ih (dictInsert d x.id x.applications) r hr2 hnd.2

/-- Same fact through `abeOf`. -/
theorem abeOf_find (rows : List RowIn) (r : RowIn)
    (hnd : (rows.map fun x => x.id).Nodup) (hr : r ∈ rows) :
    abeFind (abeOf rows) r.id = some r.applications :=
  abeFind_foldl rows [] r hr hnd

/-- How many application rows one input row contributes: its mention
count, or one when it has no mentions. -/
theorem appColsOf_length (rows : List RowIn) (r : RowIn)
    (hnd : (rows.map fun x => x.id).Nodup) (hr : r ∈ rows) :
    (appColsOf (abeOf rows) r).length
      = if r.applications.isEmpty then 1 else r.applications.length := by
  unfold appColsOf
  rw [abeOf_find rows r hnd hr]
  by_cases h : r.applications.isEmpty = true
  · simp [h]
  · have h2 : r.applications.isEmpty = false := by simpa using h
    simp [h2]

/-- All the rows one input row contributes count toward its own id. -/
theorem appColsOf_count_self (abe : List (String × List AppDict))
    (r : RowIn) :
    (appColsOf abe r).filter (fun a => a.email_id = r.id)
      = appColsOf abe r := by
  apply List.filter_eq_self.mpr
  intro a ha
  simpa using appColsOf_email_id abe r a ha

/-- No row contributed by one input row counts toward another id. -/
theorem appColsOf_count_other (abe : List (String × List AppDict))
    (r : RowIn) (i : String) (h : r.id ≠ i) :
    (appColsOf abe r).filter (fun a => a.email_id = i) = [] := by
  apply List.filter_eq_nil_iff.mpr
  intro a ha
  have he := appColsOf_email_id abe r a ha
  simp [he, h]

/-- Per-id filtered length of the application rebuild, as a sum over the
batch. -/
theorem buildApps_filter_len (rows : List RowIn) (q : AppCols → Bool) :
    ((buildApps rows).filter q).length
      = (rows.map fun x => ((appColsOf (abeOf rows) x).filter q).length).sum := by
  unfold buildApps
  generalize abeOf rows = abe
  induction rows with
  | nil => rfl
  | cons x xs ih => simp [List.filter_append, ih]

/-- In a batch with pairwise-distinct ids, only the row owning the id
contributes to its count. -/
theorem sum_count_single (abe : List (String × List AppDict)) (r : RowIn) :
    ∀ l : List RowIn, r ∈ l → ((l.map fun x => x.id).Nodup) →
      (l.map fun x =>
          ((appColsOf abe x).filter fun a => a.email_id = r.id).length).sum
        = ((appColsOf abe r).filter fun a => a.email_id = r.id).length := by
  intro l
  induction l with
  | nil => intro hr; cases hr
  | cons x xs ih =>
    intro hr hnd
    rw [List.map_cons, List.sum_cons]
    rw [List.map_cons, List.nodup_cons] at hnd
    rcases List.mem_cons.mp hr with rfl | hr2
    · have hsum : (xs.map fun x =>
          ((appColsOf abe x).filter fun a => a.email_id = r.id).length).sum
          = 0 := by
        apply List.sum_eq_zero
        intro n hn
        obtain ⟨y, hy, rfl⟩ := List.mem_map.mp hn
        have hne : y.id ≠ r.id := fun hh =>
          hnd.1 (List.mem_map.mpr ⟨y, hy, hh⟩)
        rw [appColsOf_count_other abe y r.id hne]
        rfl
      rw [hsum, Nat.add_zero]
    · have hxne : x.id ≠ r.id := by
        intro hh
        exact hnd.1 (hh ▸ List.mem_map.mpr ⟨r, hr2, rfl⟩)
      rw [appColsOf_count_other abe x r.id hxne]
      rw [show ([] : List AppCols).length = 0 from rfl, Nat.zero_add]
      exact ih hr2 hnd.2

/-- Count of rebuilt application rows for an id of a distinct-ids
batch. -/
theorem buildApps_count (rows : List RowIn) (r : RowIn)
    (hnd : (rows.map fun x => x.id).Nodup) (hr : r ∈ rows) :
    ((buildApps rows).filter fun a => a.email_id = r.id).length
      = if r.applications.isEmpty then 1 else r.applications.length := by
  rw [buildApps_filter_len rows fun a => a.email_id = r.id]
  rw [sum_count_single (abeOf rows) r rows hr hnd]
  rw [appColsOf_count_self (abeOf rows) r]
  exact appColsOf_length rows r hnd hr

/-- Claim C1 (amended): for a batch whose rows have pairwise-distinct
email ids, after save_rows the number of applications rows for a batch
row's id equals its number of extracted job mentions — or exactly one,
synthesized from the email's flat fields, when no mention was extracted —
and every applications row left for that id is freshly inserted (its
surrogate id is at or above the pre-call AUTOINCREMENT counter): no old
row survives, never a mix of old and new. -/
theorem C1_applications_replaced (db : DB) (rows : List RowIn) (r : RowIn)
    (hnd : (rows.map fun x => x.id).Nodup) (hr : r ∈ rows) :
    countApps (saveRows db rows) r.id
      = (if r.applications.isEmpty then 1 else r.applications.length) ∧
    (∀ a ∈ (saveRows db rows).apps, a.email_id = r.id →
      db.nextAppId ≤ a.rowid) := by
  have hE : rows.isEmpty = false := by
    cases rows with
    | nil => cases hr
    | cons x xs => rfl
  have hmemid : r.id ∈ (rows.map cleanRow).map fun c => c.id := by
    rw [emailIds_eq]
    exact List.mem_map.mpr ⟨r, hr, rfl⟩
  have hcontains := List.elem_eq_true_of_mem hmemid
  constructor
  · unfold countApps
    rw [saveRows_apps db rows hE, List.filter_append, List.length_append]
    have hold : ((db.apps.filter fun a =>
          !(((rows.map cleanRow).map fun c => c.id).contains a.email_id)).filter
            fun a => a.email_id = r.id) = [] := by
      apply List.filter_eq_nil_iff.mpr
      intro a ha hp
      have h1 := (List.mem_filter.mp ha).2
      have heq : a.email_id = r.id := by simpa using hp
      rw [heq] at h1
      rw [show ((rows.map cleanRow).map fun c => c.id).contains r.id = true
          from hcontains] at h1
      exact absurd h1 (by decide)
    rw [hold, List.length_nil, Nat.zero_add,
      numberFrom_filter_len (buildApps rows) r.id db.nextAppId]
    exact buildApps_count rows r hnd hr
  · intro a ha hid
    rw [saveRows_apps db rows hE] at ha
    rcases List.mem_append.mp ha with h1 | h2
    · exfalso
      have hb := (List.mem_filter.mp h1).2
      rw [hid] at hb
      rw [show ((rows.map cleanRow).map fun c => c.id).contains r.id = true
          from hcontains] at hb
      exact absurd hb (by decide)
    · exact numberFrom_rowid_ge (buildApps rows) db.nextAppId a h2

/-- Witness for C1: a two-row batch with distinct ids; the row with two
mentions ends with two application rows, the row with none ends with one
synthesized application row. -/
theorem C1_witness :
    countApps (saveRows emptyDB [rowC1w1, rowC1w2]) rowC1w1.id = 2 ∧
    countApps (saveRows emptyDB [rowC1w1, rowC1w2]) rowC1w2.id = 1 :=
  ⟨(C1_applications_replaced emptyDB [rowC1w1, rowC1w2] rowC1w1 (by decide)
      (List.mem_cons_self _ _)).1,
   (C1_applications_replaced emptyDB [rowC1w1, rowC1w2] rowC1w2 (by decide)
      (List.mem_cons_of_mem _ (List.mem_cons_self _ _))).1⟩

/-- Counterexample to C1 as stated: a batch holding the same email id
twice (one mention, then two mentions) ends with four applications rows
for that id — not the two mentions of the latest extraction. -/
theorem C1_counterexample :
    rowC1a.id = "dup" ∧ rowC1b.id = "dup" ∧
    rowC1b.applications.length = 2 ∧
    countApps (saveRows emptyDB [rowC1a, rowC1b]) "dup" = 4 ∧
    (4 : Nat) ≠ 2 := by
  refine ⟨rfl, rfl, rfl, rfl, by norm_num⟩

/-! ## Value coercion before insertion -/

/-- The output of the value cleaner is always a scalar. -/
theorem isScalar_pyClean (v : PyVal) : isScalar (pyClean v) = true := by
  cases v <;> rfl

/-- Claim C10: save_rows on an empty batch returns without touching the
database; and every column value it binds in the emails insert and the
applications insert has passed through the value cleaner, so no bound
value is None, a list, or a dict. -/
theorem C10_values_string_coerced :
    (∀ db, saveRows db [] = db) ∧
    (∀ (rows : List RowIn) (c : EmailRec), c ∈ rows.map cleanRow →
      ∀ v ∈ emailFieldVals c, isScalar v = true) ∧
    (∀ (rows : List RowIn) (a : AppCols), a ∈ buildApps rows →
      ∀ v ∈ appColVals a, isScalar v = true) := by
  refine ⟨fun db => rfl, ?_, ?_⟩
  · intro rows c hc v hv
    obtain ⟨r, _, rfl⟩ := List.mem_map.mp hc
    simp only [emailFieldVals, cleanRow, List.mem_cons,
      List.not_mem_nil, or_false] at hv
    rcases hv with rfl | rfl | rfl | rfl | rfl | rfl | rfl | rfl | rfl |
      rfl | rfl <;> exact isScalar_pyClean _
  · intro rows a ha v hv
    unfold buildApps at ha
    obtain ⟨r, _, har⟩ := mem_foldr_append _ rows a ha
    simp only [appColsOf] at har
    obtain ⟨x, _, rfl⟩ := List.mem_map.mp har
    simp only [appColVals, List.mem_cons, List.not_mem_nil, or_false] at hv
    rcases hv with rfl | rfl | rfl | rfl | rfl | rfl <;>
      exact isScalar_pyClean _

/-- Witness for C10 at a concrete database, batch and synthesized
application row. -/
theorem C10_witness :
    saveRows emptyDB [] = emptyDB ∧
    isScalar (cleanRow rowC10).email_num = true ∧
    isScalar emptyS = true :=
  ⟨C10_values_string_coerced.1 emptyDB,
   C10_values_string_coerced.2.1 [rowC10] (cleanRow rowC10)
     (List.mem_singleton.mpr rfl) (cleanRow rowC10).email_num
     (List.mem_cons_self _ _),
   C10_values_string_coerced.2.2 [rowC10] a0C10
     (by rw [show buildApps [rowC10] = [a0C10] from rfl]
         exact List.mem_singleton.mpr rfl)
     emptyS (List.mem_cons_self _ _)⟩

end JobEmailLLM
